import Mathlib

/-!
Verification of the YNAB5-to-beancount importer (`ynab.py`).

The definitions below are a shallow embedding of the program's core:
the name normalizer (`ynab_normalize`), the ledger account router
(`to_bean` together with its helper `bean_default` and
`fmt_ynab_category`), the transaction classifier
(`get_target_account`), the inflows-category resolution performed at
startup (`resolve_inflows`), budget selection (`budget_from_json`),
the list-identifiers mode (`list_ynab_ids`) and the main import loop
(`importStep` / `runLoop` / `runImport`).

Conventions:
* Python values that may be `None` are `Option`s; Python truthiness of
  such string options is `truthy`.
* Python `dict`s keyed by id are association lists, looked up with
  `alookup` (first match; ids are unique in the program's dicts).
* Python code that can raise (a `KeyError` from `d[k]`, an
  `AttributeError` from `list.values()`, an explicit `raise`, an
  `assert`) is modelled with `Option`/`Except`: a `none`/`.error`
  result is an uncaught exception aborting the run.
* `Decimal(n)/1000` is exact for integer `n`, so milliunit conversion
  is modelled in `ℚ` (`from_milli`).
* Printed output is modelled structurally: one `Line` per `print`
  call, carrying exactly the data interpolated into the f-string.
* Record structures keep the field order of the YNAB v1 API JSON
  objects (`id` first); only the fields the program reads are kept.
-/

/-- An account record (`accounts_from_json`): id and normalized name. -/
structure Account where
  id : String
  name : String
deriving DecidableEq

/-- A category-group record (`categories_from_json`), normalized name. -/
structure CategoryGroup where
  id : String
  name : String
deriving DecidableEq

/-- A category record (`categories_from_json`): id first as in the API
JSON, owning group id, normalized name. -/
structure Category where
  id : String
  category_group_id : String
  name : String
deriving DecidableEq

/-- A subtransaction record (`make_transaction`). Subtransactions have
no `payee_name` attribute. Amounts are integer milliunits. -/
structure Subtransaction where
  id : String
  amount : Int
  memo : Option String
  category_id : Option String
  transfer_account_id : Option String
  transfer_transaction_id : Option String
deriving DecidableEq

/-- A transaction record (`make_transaction`). `cleared` is the raw
status string (`"uncleared"`, `"cleared"`, `"reconciled"`). -/
structure Transaction where
  id : String
  date : String
  amount : Int
  memo : Option String
  cleared : String
  deleted : Bool
  account_id : String
  payee_name : Option String
  category_id : Option String
  transfer_account_id : Option String
  transfer_transaction_id : Option String
  subtransactions : List Subtransaction
deriving DecidableEq

/-- The command-line switches consumed inside the import loop. -/
structure Args where
  skip_starting_balances : Bool
  balance_adjustment_account : Option String
deriving DecidableEq

/-- First-match association-list lookup, the model of Python `dict`
indexing/`in`/`get` (the program's dicts have unique keys). -/
def alookup {α : Type} : List (String × α) → String → Option α
  | [], _ => none
  | (k, v) :: rest, key => if k = key then some v else alookup rest key

/-- Python truthiness of an optional string (`None` and `''` falsy). -/
def truthy : Option String → Bool
  | none => false
  | some s => s != ""

/-- The characters of Python's `string.punctuation`. -/
def pythonPunctuation : List Char :=
  "!\"#$%&\x27()*+,-./:;<=>?@[\\]^_\x60\x7b|\x7d~".toList

/-- `ynab_normalize`: delete punctuation, then spaces become `-`. -/
def ynab_normalize (name : String) : String :=
  String.mk (((name.toList.filter (fun c => c ∉ pythonPunctuation)).map
    (fun c => if c = ' ' then '-' else c)))

/-- `fmt_ynab_category`: `group.name:category.name`, `none` modelling a
`KeyError` on either dict access. -/
def fmt_ynab_category (id : String) (groups : List (String × CategoryGroup))
    (categories : List (String × Category)) : Option String :=
  match alookup categories id with
  | none => none
  | some c =>
    match alookup groups c.category_group_id with
    | none => none
    | some g => some (g.name ++ ":" ++ c.name)

/-- The resolution context the import loop's closures capture: the
fetched lookup tables, the ledger-derived account mapping, the
resolved inflows category id, the ledger root-account names from the
beancount options, and the budget's currency code. -/
structure Ctx where
  accounts : List (String × Account)
  groups : List (String × CategoryGroup)
  categories : List (String × Category)
  account_mapping : List (String × String)
  inflows_category_id : String
  assetPrefix : String
  expensePrefix : String
  incomePrefix : String
  commodity : String
deriving DecidableEq

/-- The `bean_default` local of `to_bean`: asset path for accounts,
income path for the inflows category, expense path for other
categories, the raw id otherwise. -/
def bean_default (ctx : Ctx) (id : String) : Option String :=
  match alookup ctx.accounts id with
  | some a => some (ctx.assetPrefix ++ ":" ++ a.name)
  | none =>
    if id = ctx.inflows_category_id then
      (fmt_ynab_category id ctx.groups ctx.categories).map
        (fun n => ctx.incomePrefix ++ ":" ++ n)
    else
      match alookup ctx.categories id with
      | some _ =>
        (fmt_ynab_category id ctx.groups ctx.categories).map
          (fun n => ctx.expensePrefix ++ ":" ++ n)
      | none => some id

/-- `to_bean`: the account mapping overrides the computed default
(`account_mapping.get(id, bean_default)`); the default is computed
first, as in the source. -/
def to_bean (ctx : Ctx) (id : String) : Option String :=
  (bean_default ctx id).map (fun d => (alookup ctx.account_mapping id).getD d)

/-- `get_target_account` over the fields it reads; a subtransaction is
passed with `payee_name := none` (`getattr(txn, 'payee_name', None)`). -/
def get_target_account (ctx : Ctx) (adjustment_account : Option String)
    (payee_name memo category_id transfer_account_id : Option String) :
    Option String :=
  if payee_name = some "Reconciliation Balance Adjustment" ∧
      memo = some "Entered automatically by YNAB" ∧
      truthy adjustment_account = true then
    adjustment_account
  else if truthy category_id = true then
    match category_id with
    | some c => to_bean ctx c
    | none => none
  else if truthy transfer_account_id = true then
    match transfer_account_id with
    | some a => to_bean ctx a
    | none => none
  else
    some "; FIXME. Error could only generate one leg from YNAB data."

/-- `from_milli`: exact conversion of integer milliunits
(`Decimal(n)/1000`). -/
def from_milli (n : Int) : ℚ := (n : ℚ) / 1000

/-- One printed output line of the import loop, carrying the data the
corresponding f-string interpolates. -/
inductive Line where
  | header (date : String) (payee_name : Option String) (memo : Option String)
  | ynabId (id : String)
  | sourcePosting (account : String) (amount : ℚ) (commodity : String)
  | subPosting (account : String) (amount : ℚ) (commodity : String)
      (memo : Option String)
  | targetPosting (account : String)
  | blank
deriving DecidableEq

/-- The loop's mutable state: the seen-id set (`seen_transactions`,
as a membership list), the import `count`, the emitted `lines`, and
the ids of transactions that triggered the missing-category warning. -/
structure LoopState where
  seen : List String
  count : Nat
  lines : List Line
  warned : List String
deriving DecidableEq

/-- `set.add`: membership-preserving insertion. -/
def addSeen (x : String) (seen : List String) : List String :=
  if x ∈ seen then seen else x :: seen

/-- The inner `for sub in t.subtransactions` loop: emit one posting per
subtransaction with the amount sign flipped, and record each truthy
subtransaction transfer id in the seen set. A `none` target account
(`KeyError` inside `to_bean`) aborts. -/
def processSubs (ctx : Ctx) (adjustment_account : Option String)
    (acc : List Line × List String) :
    List Subtransaction → Option (List Line × List String)
  | [] => some acc
  | sub :: rest =>
    match get_target_account ctx adjustment_account none sub.memo
        sub.category_id sub.transfer_account_id with
    | none => none
    | some tgt =>
      let lines := acc.1 ++
        [Line.subPosting tgt (-(from_milli sub.amount)) ctx.commodity sub.memo]
      let seen :=
        match sub.transfer_transaction_id with
        | some x => if x ≠ "" then addSeen x acc.2 else acc.2
        | none => acc.2
      processSubs ctx adjustment_account (lines, seen) rest

/-- The seen set after the emit branch's two unconditional updates:
`seen_transactions.add(t.id)` and, when the transfer-counterpart id is
truthy, `seen_transactions.add(t.transfer_transaction_id)`. -/
def seenAfterHeader (st : LoopState) (t : Transaction) : List String :=
  match t.transfer_transaction_id with
  | some x =>
    if x ≠ "" then addSeen x (addSeen t.id st.seen) else addSeen t.id st.seen
  | none => addSeen t.id st.seen

/-- The header, metadata and source-posting lines of one entry. -/
def headerLines (ctx : Ctx) (t : Transaction) (src : String) : List Line :=
  [Line.header t.date t.payee_name t.memo, Line.ynabId t.id,
   Line.sourcePosting src (from_milli t.amount) ctx.commodity]

/-- The emit branch of the loop body (everything from `count += 1` to
the terminating blank line). -/
def importTxn (ctx : Ctx) (args : Args) (st : LoopState) (t : Transaction) :
    Option LoopState :=
  match to_bean ctx t.account_id with
  | none => none
  | some src =>
    match t.subtransactions with
    | [] =>
      match get_target_account ctx args.balance_adjustment_account
          t.payee_name t.memo t.category_id t.transfer_account_id with
      | none => none
      | some tgt =>
        some ⟨seenAfterHeader st t, st.count + 1,
          st.lines ++ headerLines ctx t src ++
            [Line.targetPosting tgt, Line.blank],
          st.warned⟩
    | sub :: rest =>
      match processSubs ctx args.balance_adjustment_account
          ([], seenAfterHeader st t) (sub :: rest) with
      | none => none
      | some (subLines, seen3) =>
        some ⟨seen3, st.count + 1,
          st.lines ++ headerLines ctx t src ++ subLines ++ [Line.blank],
          st.warned⟩

/-- One iteration of the import loop over an already
reconciled-and-not-deleted transaction: the two optional
starting-balance skips (whose debug messages evaluate
`to_bean(t.account_id)` eagerly), the missing-category warning (whose
message also evaluates `to_bean(t.account_id)` eagerly, and which runs
before deduplication), the two deduplication skips, then the emit
branch. -/
def importStep (ctx : Ctx) (args : Args) (st : LoopState) (t : Transaction) :
    Option LoopState :=
  if args.skip_starting_balances = true ∧
      t.payee_name = some "Starting Balance" ∧
      t.category_id = some ctx.inflows_category_id then
    (to_bean ctx t.account_id).map (fun _ => st)
  else if args.skip_starting_balances = true ∧
      t.payee_name = some "Starting Balance" ∧
      truthy t.category_id = false then
    (to_bean ctx t.account_id).map (fun _ => st)
  else
    match (if truthy t.category_id = false ∧
        truthy t.transfer_account_id = false then
      (to_bean ctx t.account_id).map (fun _ => st.warned ++ [t.id])
    else some st.warned) with
    | none => none
    | some w =>
      if t.id ∈ st.seen then some { st with warned := w }
      else if (match t.transfer_transaction_id with
          | some x => decide (x ∈ st.seen)
          | none => false) = true then some { st with warned := w }
      else importTxn ctx args { st with warned := w } t

/-- The import loop proper, over the filtered transaction sequence. -/
def runLoop (ctx : Ctx) (args : Args) :
    LoopState → List Transaction → Option LoopState
  | st, [] => some st
  | st, t :: ts =>
    match importStep ctx args st t with
    | none => none
    | some st' => runLoop ctx args st' ts

/-- The eligibility filter of the loop's generator expression:
`t['cleared'] == 'reconciled' and not t['deleted']`. -/
def eligible (t : Transaction) : Bool :=
  t.cleared == "reconciled" && !t.deleted

/-- The whole import phase: filter, then fold the loop body from the
seeded state. -/
def runImport (ctx : Ctx) (args : Args) (seen0 : List String)
    (ts : List Transaction) : Option LoopState :=
  runLoop ctx args { seen := seen0, count := 0, lines := [], warned := [] }
    (ts.filter eligible)

/-- The startup inflows resolution (the two `assert len(r) == 1`
blocks before the loop): find the id of the unique group named
`Internal Master Category` (after normalization) and the id of the
unique `Inflows` category owned by it; any other match count is an
`AssertionError`, modelled as `none`. -/
def resolve_inflows (groups : List (String × CategoryGroup))
    (categories : List (String × Category)) : Option (String × String) :=
  match ((groups.map Prod.snd).filter
      (fun x => x.name = ynab_normalize "Internal Master Category")).map
      (fun x => x.id) with
  | [m] =>
    match ((categories.map Prod.snd).filter
        (fun x => x.name = ynab_normalize "Inflows" ∧
          x.category_group_id = m)).map (fun x => x.id) with
    | [i] => some (m, i)
    | _ => none
  | _ => none

/-- The import phase as run from `__main__`: resolve the inflows
category (aborting on assertion failure, before any output), build
the closure context, then run the loop. -/
def run_full (args : Args) (seen0 : List String)
    (account_mapping : List (String × String))
    (accounts : List (String × Account))
    (groups : List (String × CategoryGroup))
    (categories : List (String × Category))
    (assetP expenseP incomeP commodity : String)
    (ts : List Transaction) : Option LoopState :=
  match resolve_inflows groups categories with
  | none => none
  | some (_, inflows) =>
    runImport ⟨accounts, groups, categories, account_mapping, inflows,
      assetP, expenseP, incomeP, commodity⟩ args seen0 ts

/-- The mapping-status column printed by `list_ynab_ids`:
`account_mapping.get(id, '(none)')`. -/
def mappingStatus (account_mapping : List (String × String))
    (id : String) : String :=
  (alookup account_mapping id).getD "(none)"

/-- Lexicographic code-point comparison of character lists: the order
Python uses on strings. -/
def charListLe : List Char → List Char → Bool
  | [], _ => true
  | _ :: _, [] => false
  | a :: as, b :: bs =>
    if a.toNat < b.toNat then true
    else if b.toNat < a.toNat then false
    else charListLe as bs

/-- Python string comparison (lexicographic by code point). -/
def strLe (a b : String) : Bool := charListLe a.toList b.toList

def charListLe_total : ∀ a b, charListLe a b = true ∨ charListLe b a = true := by
  intro a
  induction a with
  | nil => intro b; left; rfl
  | cons x xs ih =>
    intro b
    cases b with
    | nil => right; rfl
    | cons y ys =>
      by_cases h1 : x.toNat < y.toNat
      · left; simp [charListLe, h1]
      · by_cases h2 : y.toNat < x.toNat
        · right; simp [charListLe, h2]
        · rcases ih ys with h | h
          · left; simp [charListLe, h1, h2, h]
          · right; simp [charListLe, h1, h2, h]

def charListLe_trans : ∀ a b c, charListLe a b = true →
    charListLe b c = true → charListLe a c = true := by
  intro a
  induction a with
  | nil => intro b c _ _; rfl
  | cons x xs ih =>
    intro b c hab hbc
    cases b with
    | nil => simp [charListLe] at hab
    | cons y ys =>
      cases c with
      | nil => simp [charListLe] at hbc
      | cons z zs =>
        rw [charListLe] at hab hbc ⊢
        by_cases hxy : x.toNat < y.toNat
        · by_cases hyz : y.toNat < z.toNat
          · rw [if_pos (lt_trans hxy hyz)]
          · by_cases hzy : z.toNat < y.toNat
            · rw [if_neg hyz, if_pos hzy] at hbc; cases hbc
            · have heq : y.toNat = z.toNat :=
                le_antisymm (not_lt.mp hzy) (not_lt.mp hyz)
              rw [if_pos (heq ▸ hxy)]
        · by_cases hyx : y.toNat < x.toNat
          · rw [if_neg hxy, if_pos hyx] at hab; cases hab
          · have hxy' : x.toNat = y.toNat :=
              le_antisymm (not_lt.mp hyx) (not_lt.mp hxy)
            by_cases hyz : y.toNat < z.toNat
            · rw [if_pos (hxy' ▸ hyz)]
            · by_cases hzy : z.toNat < y.toNat
              · rw [if_neg hyz, if_pos hzy] at hbc; cases hbc
              · have hyz' : y.toNat = z.toNat :=
                  le_antisymm (not_lt.mp hzy) (not_lt.mp hyz)
                have h1 : ¬x.toNat < z.toNat := by
                  rw [hxy', hyz']; exact lt_irrefl _
                have h2 : ¬z.toNat < x.toNat := by
                  rw [hxy', hyz']; exact lt_irrefl _
                rw [if_neg h1, if_neg h2]
                rw [if_neg hxy, if_neg hyx] at hab
                rw [if_neg hyz, if_neg hzy] at hbc
                exact ih ys zs hab hbc

/-- Comparison key of `sorted(ids.items(), key=lambda x: x[1])`: the
dict value is a namedtuple whose first field is the record id, so
tuple comparison orders items by the value's id (ids are unique dict
keys, so later fields never decide ties). -/
def valueIdLe {α : Type} (getId : α → String) (a b : String × α) : Prop :=
  strLe (getId a.2) (getId b.2) = true

instance {α : Type} {getId : α → String} : DecidableRel (valueIdLe getId) :=
  fun a b => inferInstanceAs (Decidable (strLe (getId a.2) (getId b.2) = true))

instance {α : Type} {getId : α → String} : IsTotal (String × α) (valueIdLe getId) :=
  ⟨fun a b => charListLe_total (getId a.2).toList (getId b.2).toList⟩

instance {α : Type} {getId : α → String} : IsTrans (String × α) (valueIdLe getId) :=
  ⟨fun _ _ _ h h' => charListLe_trans _ _ _ h h'⟩

/-- The category half of `list_ynab_ids`: one
(id, resolved name, mapping status) triple per sorted item; a
`KeyError` inside the category formatter aborts. -/
def catEntries (account_mapping : List (String × String))
    (groups : List (String × CategoryGroup))
    (categories : List (String × Category)) :
    List (String × Category) → Option (List (String × String × String))
  | [] => some []
  | p :: rest =>
    match fmt_ynab_category p.2.id groups categories with
    | none => none
    | some n =>
      match catEntries account_mapping groups categories rest with
      | none => none
      | some es => some ((p.1, n, mappingStatus account_mapping p.1) :: es)

/-- `list_ynab_ids`: the account listing (formatter `x.name`) followed
by the category listing (formatter `fmt_ynab_category`), each sorted
by the dict item's value. -/
def list_ynab_ids (account_mapping : List (String × String))
    (accounts : List (String × Account))
    (groups : List (String × CategoryGroup))
    (categories : List (String × Category)) :
    Option (List (String × String × String)) :=
  let accPart := (List.insertionSort (valueIdLe Account.id) accounts).map
    (fun p => (p.1, p.2.name, mappingStatus account_mapping p.1))
  match catEntries account_mapping groups categories
      (List.insertionSort (valueIdLe Category.id) categories) with
  | none => none
  | some catPart => some (accPart ++ catPart)

/-- The nested currency-format record of a budget. -/
structure CurrencyFormat where
  iso_code : String
deriving DecidableEq

/-- A raw budget object from the budgets endpoint. -/
structure BudgetJson where
  id : String
  name : String
  currency_format : CurrencyFormat
deriving DecidableEq

/-- The converted budget namedtuple (`make_budget`). -/
structure Budget where
  id : String
  name : String
  currency_format : CurrencyFormat
deriving DecidableEq

/-- `make_budget`: wrap the raw record (the nested currency format is
re-wrapped field-for-field). -/
def make_budget (b : BudgetJson) : Budget :=
  ⟨b.id, b.name, b.currency_format⟩

/-- The exceptions `budget_from_json` can raise. `valuesOnList` is the
`AttributeError` from `json_budgets.values()[0]`: `json_budgets` is a
JSON array (a list), which has no `.values()`, so the
zero-or-one-budget branch always raises. -/
inductive BudgetError where
  | noBudgetSpecified (names : List String)
  | budgetNotFound (budget : String)
  | valuesOnList
deriving DecidableEq

/-- `budget_from_json`: with more than one budget, a truthy name must
match exactly one budget; with zero or one budget the `.values()`
call raises. -/
def budget_from_json (budget : Option String)
    (json_budgets : List BudgetJson) : Except BudgetError Budget :=
  if 1 < json_budgets.length then
    if truthy budget = false then
      .error (.noBudgetSpecified (json_budgets.map (fun a => a.name)))
    else
      match budget with
      | none => .error (.noBudgetSpecified (json_budgets.map (fun a => a.name)))
      | some bname =>
        match json_budgets.filter (fun a => a.name = bname) with
        | [b] => .ok (make_budget b)
        | _ => .error (.budgetNotFound bname)
  else
    .error .valuesOnList

/-- Well-formedness of the fetched category tables, guaranteed by
`categories_from_json` (categories arrive nested under their groups,
and the resolved inflows id is a category key): every category's
owning group is present, and the inflows id resolves. Under it the
router and the loop never hit a `KeyError`. -/
def Ctx.wf (ctx : Ctx) : Prop :=
  (alookup ctx.categories ctx.inflows_category_id).isSome = true ∧
  ∀ p ∈ ctx.categories, (alookup ctx.groups p.2.category_group_id).isSome = true

instance (ctx : Ctx) : Decidable ctx.wf := by
  unfold Ctx.wf
  infer_instance

/-- A concrete context for witnesses: one account, one group, an
ordinary category and the inflows category. -/
def wCtx : Ctx :=
  ⟨[("acc1", ⟨"acc1", "Checking"⟩)], [("g1", ⟨"g1", "Grp"⟩)],
   [("cat1", ⟨"cat1", "g1", "Food"⟩), ("inf", ⟨"inf", "g1", "Inflows"⟩)],
   [], "inf", "Assets", "Expenses", "Income", "USD"⟩

/-- A concrete context whose mapping table overrides an identifier
that is also an Account. -/
def c1ctx : Ctx :=
  ⟨[("dup", ⟨"dup", "Checking"⟩)], [("g1", ⟨"g1", "Grp"⟩)],
   [("inf", ⟨"inf", "g1", "Inflows"⟩)], [("dup", "Assets:Override")],
   "inf", "Assets", "Expenses", "Income", "USD"⟩

/-- A concrete non-reconciled transaction. -/
def c5t : Transaction :=
  ⟨"u1", "2020-01-01", 1000, none, "cleared", false, "acc1", some "P",
   some "cat1", none, none, []⟩

/-- A concrete raw budget record. -/
def c10b : BudgetJson := ⟨"b1", "Budget", ⟨"USD"⟩⟩

/-- A reconciled transfer leg pointing at `c2B`. -/
def c2A : Transaction :=
  ⟨"a", "2020-01-01", 1000, none, "reconciled", false, "acc1", some "P",
   some "cat1", none, some "b", []⟩

/-- The other leg of the transfer pair, pointing back at `c2A`. -/
def c2B : Transaction :=
  ⟨"b", "2020-01-02", -1000, none, "reconciled", false, "acc1", some "P",
   some "cat1", none, some "a", []⟩

/-- The state after importing `c2A` from the empty initial state. -/
def c2stA : LoopState :=
  ⟨["b", "a"], 1,
   [Line.header "2020-01-01" (some "P") none, Line.ynabId "a",
    Line.sourcePosting "Assets:Checking" (from_milli 1000) "USD",
    Line.targetPosting "Expenses:Grp:Food", Line.blank], []⟩

/-- A concrete transaction whose id is already in the seeded set. -/
def c3t : Transaction :=
  ⟨"s1", "2020-01-03", 500, none, "reconciled", false, "acc1", some "P",
   some "cat1", none, none, []⟩

/-- An already-seen transaction with neither category nor transfer
account id. -/
def c4t : Transaction :=
  ⟨"t1", "2020-01-04", 700, none, "reconciled", false, "acc9", some "P",
   none, none, none, []⟩

/-- A concrete split transaction with two subtransactions. -/
def c6t : Transaction :=
  ⟨"sp1", "2020-01-05", 1500, none, "reconciled", false, "acc1", some "P",
   some "cat1", none, none,
   [⟨"sub1", 500, none, some "cat1", none, none⟩,
    ⟨"sub2", 1000, none, some "cat1", none, none⟩]⟩

/-- The first subtransaction of `c6t`. -/
def c6sub : Subtransaction := ⟨"sub1", 500, none, some "cat1", none, none⟩

/-- The state after importing `c6t` from the empty initial state. -/
def c6st : LoopState :=
  ⟨["sp1"], 1,
   [Line.header "2020-01-05" (some "P") none, Line.ynabId "sp1",
    Line.sourcePosting "Assets:Checking" (from_milli 1500) "USD",
    Line.subPosting "Expenses:Grp:Food" (-(from_milli 500)) "USD" none,
    Line.subPosting "Expenses:Grp:Food" (-(from_milli 1000)) "USD" none,
    Line.blank], []⟩

/-- A split transaction whose subtransaction's transfer id points at
`c7t3`. -/
def c7t1 : Transaction :=
  ⟨"a", "2020-01-06", 1000, none, "reconciled", false, "acc1", some "P",
   some "cat1", none, none,
   [⟨"sub1", 1000, none, some "cat1", none, some "c"⟩]⟩

/-- A plain reconciled transaction with id `c`. -/
def c7t3 : Transaction :=
  ⟨"c", "2020-01-07", 2000, none, "reconciled", false, "acc1", some "P",
   some "cat1", none, none, []⟩

/-- An independent reconciled transaction for the C7 witness. -/
def c7w1 : Transaction :=
  ⟨"w1", "2020-01-08", 1000, none, "reconciled", false, "acc1", some "P",
   some "cat1", none, none, []⟩

/-- A second independent reconciled transaction for the C7 witness. -/
def c7w2 : Transaction :=
  ⟨"w2", "2020-01-09", 2000, none, "reconciled", false, "acc1", some "Q",
   some "cat1", none, none, []⟩

/-- Two groups and two categories whose id order disagrees with the
resolved `group:name` order however ties are broken. -/
def c9groups : List (String × CategoryGroup) :=
  [("gA", ⟨"gA", "Alpha"⟩), ("gZ", ⟨"gZ", "Zeta"⟩)]

/-- See `c9groups`. -/
def c9cats : List (String × Category) :=
  [("1", ⟨"1", "gZ", "Apple"⟩), ("2", ⟨"2", "gA", "Zed"⟩)]

theorem alookup_mem {α : Type} {l : List (String × α)} {k : String} {v : α}
    (h : alookup l k = some v) : (k, v) ∈ l := by
  induction l with
  | nil => simp [alookup] at h
  | cons p rest ih =>
    rw [alookup] at h
    split at h
    · cases p
      simp_all
    · exact List.mem_cons_of_mem _ (ih h)

theorem mem_addSeen {a x : String} {s : List String} :
    a ∈ addSeen x s ↔ a = x ∨ a ∈ s := by
  unfold addSeen
  split
  next h =>
    constructor
    · exact Or.inr
    · rintro (rfl | hm)
      · exact h
      · exact hm
  next h => simp

theorem mem_addSeen_of_mem {a x : String} {s : List String} (h : a ∈ s) :
    a ∈ addSeen x s := mem_addSeen.mpr (Or.inr h)

theorem self_mem_addSeen {x : String} {s : List String} : x ∈ addSeen x s :=
  mem_addSeen.mpr (Or.inl rfl)

theorem runLoop_append (ctx : Ctx) (args : Args) (st : LoopState)
    (l₁ l₂ : List Transaction) :
    runLoop ctx args st (l₁ ++ l₂) =
      match runLoop ctx args st l₁ with
      | none => none
      | some st' => runLoop ctx args st' l₂ := by
  induction l₁ generalizing st with
  | nil => simp [runLoop]
  | cons t rest ih =>
    rw [List.cons_append, runLoop, runLoop]
    cases importStep ctx args st t with
    | none => rfl
    | some st' => exact ih st'

theorem to_bean_total {ctx : Ctx} (hwf : ctx.wf) (id : String) :
    ∃ s, to_bean ctx id = some s := by
  rcases hwf with ⟨hinf, hgrp⟩
  have hdef : (bean_default ctx id).isSome = true := by
    cases hacc : alookup ctx.accounts id with
    | some a => simp [bean_default, hacc]
    | none =>
      by_cases hid : id = ctx.inflows_category_id
      · subst hid
        cases hcat : alookup ctx.categories ctx.inflows_category_id with
        | none => rw [hcat] at hinf; simp at hinf
        | some c =>
          cases hg2 : alookup ctx.groups c.category_group_id with
          | none =>
            have hg := hgrp _ (alookup_mem hcat)
            rw [hg2] at hg; simp at hg
          | some g =>
            simp [bean_default, hacc, fmt_ynab_category, hcat, hg2]
      · cases hcat : alookup ctx.categories id with
        | none => simp [bean_default, hacc, hid, hcat]
        | some c =>
          cases hg2 : alookup ctx.groups c.category_group_id with
          | none =>
            have hg := hgrp _ (alookup_mem hcat)
            rw [hg2] at hg; simp at hg
          | some g =>
            simp [bean_default, hacc, hid, fmt_ynab_category, hcat, hg2]
  rcases Option.isSome_iff_exists.mp hdef with ⟨d, hd⟩
  exact ⟨(alookup ctx.account_mapping id).getD d, by rw [to_bean, hd]; rfl⟩

theorem get_target_account_total {ctx : Ctx} (hwf : ctx.wf)
    (adj payee memo cat xfer : Option String) :
    ∃ s, get_target_account ctx adj payee memo cat xfer = some s := by
  unfold get_target_account
  split
  · next h =>
    rcases h with ⟨-, -, htr⟩
    cases adj with
    | none => simp [truthy] at htr
    | some a => exact ⟨a, rfl⟩
  · split
    · next h =>
      cases cat with
      | none => simp [truthy] at h
      | some c => exact to_bean_total hwf c
    · split
      · next h =>
        cases xfer with
        | none => simp [truthy] at h
        | some a => exact to_bean_total hwf a
      · exact ⟨_, rfl⟩

theorem processSubs_some {ctx : Ctx} (hwf : ctx.wf) (adj : Option String) :
    ∀ (subs : List Subtransaction) (acc : List Line × List String),
      ∃ r, processSubs ctx adj acc subs = some r := by
  intro subs
  induction subs with
  | nil => intro acc; exact ⟨acc, rfl⟩
  | cons sub rest ih =>
    intro acc
    rcases get_target_account_total hwf adj none sub.memo sub.category_id
      sub.transfer_account_id with ⟨tgt, htgt⟩
    rw [processSubs, htgt]
    exact ih _

theorem processSubs_seen_mono {ctx : Ctx} {adj : Option String} :
    ∀ {subs : List Subtransaction} {acc r : List Line × List String},
      processSubs ctx adj acc subs = some r → ∀ a ∈ acc.2, a ∈ r.2 := by
  intro subs
  induction subs with
  | nil =>
    intro acc r h a ha
    rw [processSubs] at h
    cases h
    exact ha
  | cons sub rest ih =>
    intro acc r h a ha
    rw [processSubs] at h
    split at h
    · cases h
    · refine ih h a ?_
      cases hx : sub.transfer_transaction_id with
      | none => simpa [hx] using ha
      | some x =>
        by_cases hx2 : x = "" <;>
          simp [hx, hx2, mem_addSeen_of_mem, ha]

theorem processSubs_lines_mono {ctx : Ctx} {adj : Option String} :
    ∀ {subs : List Subtransaction} {acc r : List Line × List String},
      processSubs ctx adj acc subs = some r → ∀ x ∈ acc.1, x ∈ r.1 := by
  intro subs
  induction subs with
  | nil =>
    intro acc r h x hx
    rw [processSubs] at h
    cases h
    exact hx
  | cons sub rest ih =>
    intro acc r h x hx
    rw [processSubs] at h
    split at h
    · cases h
    · exact ih h x (List.mem_append_left _ hx)

theorem processSubs_mem {ctx : Ctx} {adj : Option String} :
    ∀ {subs : List Subtransaction} {acc r : List Line × List String},
      processSubs ctx adj acc subs = some r → ∀ s ∈ subs,
        ∃ tgt, Line.subPosting tgt (-(from_milli s.amount)) ctx.commodity s.memo
          ∈ r.1 := by
  intro subs
  induction subs with
  | nil => intro acc r _ s hs; cases hs
  | cons sub rest ih =>
    intro acc r h s hs
    rw [processSubs] at h
    split at h
    · cases h
    · next tgt htgt =>
      rcases List.mem_cons.mp hs with rfl | hs'
      · refine ⟨tgt, processSubs_lines_mono h _ ?_⟩
        exact List.mem_append_right _ (List.mem_singleton.mpr rfl)
      · exact ih h s hs'

theorem processSubs_seen_eq {ctx : Ctx} {adj : Option String} :
    ∀ {subs : List Subtransaction} {acc r : List Line × List String},
      (∀ s ∈ subs, s.transfer_transaction_id = none) →
      processSubs ctx adj acc subs = some r → r.2 = acc.2 := by
  intro subs
  induction subs with
  | nil =>
    intro acc r _ h
    rw [processSubs] at h
    cases h
    rfl
  | cons sub rest ih =>
    intro acc r hno h
    rw [processSubs] at h
    split at h
    · cases h
    · next tgt htgt =>
      have hsub := hno sub (List.mem_cons_self _ _)
      rw [hsub] at h
      dsimp only at h
      exact @ih (acc.1 ++ [Line.subPosting tgt (-(from_milli sub.amount))
        ctx.commodity sub.memo], acc.2) r
        (fun s hs => hno s (List.mem_cons_of_mem _ hs)) h

theorem mem_seenAfterHeader_self {st : LoopState} {t : Transaction} :
    t.id ∈ seenAfterHeader st t := by
  unfold seenAfterHeader
  cases t.transfer_transaction_id with
  | none => exact self_mem_addSeen
  | some x =>
    by_cases hx : x = "" <;>
      simp [hx, self_mem_addSeen, mem_addSeen_of_mem (self_mem_addSeen)]

theorem mem_seenAfterHeader_of_mem {st : LoopState} {t : Transaction}
    {a : String} (ha : a ∈ st.seen) : a ∈ seenAfterHeader st t := by
  unfold seenAfterHeader
  cases t.transfer_transaction_id with
  | none => exact mem_addSeen_of_mem ha
  | some x =>
    by_cases hx : x = "" <;>
      simp [hx, mem_addSeen_of_mem, mem_addSeen_of_mem ha]

theorem importTxn_some {ctx : Ctx} {args : Args} (hwf : ctx.wf)
    (st : LoopState) (t : Transaction) :
    ∃ st', importTxn ctx args st t = some st' := by
  rcases to_bean_total hwf t.account_id with ⟨src, hsrc⟩
  rw [importTxn, hsrc]
  cases hsubs : t.subtransactions with
  | nil =>
    dsimp only
    rcases get_target_account_total hwf args.balance_adjustment_account
      t.payee_name t.memo t.category_id t.transfer_account_id with ⟨tgt, htgt⟩
    rw [htgt]
    exact ⟨_, rfl⟩
  | cons sub rest =>
    dsimp only
    rcases processSubs_some hwf args.balance_adjustment_account (sub :: rest)
      ([], seenAfterHeader st t) with ⟨⟨subLines, seen3⟩, hps⟩
    rw [hps]
    exact ⟨_, rfl⟩

theorem importTxn_spec {ctx : Ctx} {args : Args} {st : LoopState}
    {t : Transaction} {st' : LoopState}
    (h : importTxn ctx args st t = some st') :
    st'.count = st.count + 1 ∧ st'.warned = st.warned ∧
      t.id ∈ st'.seen ∧ ∀ a ∈ st.seen, a ∈ st'.seen := by
  rw [importTxn] at h
  cases hsrc : to_bean ctx t.account_id with
  | none => rw [hsrc] at h; cases h
  | some src =>
    rw [hsrc] at h
    cases hsubs : t.subtransactions with
    | nil =>
      rw [hsubs] at h
      dsimp only at h
      cases htgt : get_target_account ctx args.balance_adjustment_account
          t.payee_name t.memo t.category_id t.transfer_account_id with
      | none => rw [htgt] at h; cases h
      | some tgt =>
        rw [htgt] at h
        cases h
        exact ⟨rfl, rfl, mem_seenAfterHeader_self,
          fun a ha => mem_seenAfterHeader_of_mem ha⟩
    | cons sub rest =>
      rw [hsubs] at h
      dsimp only at h
      cases hps : processSubs ctx args.balance_adjustment_account
          ([], seenAfterHeader st t) (sub :: rest) with
      | none => rw [hps] at h; cases h
      | some pr =>
        rw [hps] at h
        cases pr with
        | mk subLines seen3 =>
          cases h
          exact ⟨rfl, rfl, processSubs_seen_mono hps _ mem_seenAfterHeader_self,
            fun a ha => processSubs_seen_mono hps _ (mem_seenAfterHeader_of_mem ha)⟩

theorem importStep_some {ctx : Ctx} {args : Args} (hwf : ctx.wf)
    (st : LoopState) (t : Transaction) :
    ∃ st', importStep ctx args st t = some st' := by
  rcases to_bean_total hwf t.account_id with ⟨src, hsrc⟩
  unfold importStep
  split
  · rw [hsrc]; exact ⟨st, rfl⟩
  · split
    · rw [hsrc]; exact ⟨st, rfl⟩
    · have hw : ∃ w, (if truthy t.category_id = false ∧
          truthy t.transfer_account_id = false then
            (to_bean ctx t.account_id).map (fun _ => st.warned ++ [t.id])
          else some st.warned) = some w := by
        split
        · rw [hsrc]; exact ⟨_, rfl⟩
        · exact ⟨_, rfl⟩
      rcases hw with ⟨w, hw⟩
      rw [hw]
      dsimp only
      split
      · exact ⟨_, rfl⟩
      · split
        · exact ⟨_, rfl⟩
        · exact importTxn_some hwf _ t

theorem step_frame_of_seen {ctx : Ctx} {args : Args} {st : LoopState}
    {t : Transaction} {st' : LoopState}
    (h : importStep ctx args st t = some st')
    (hseen : t.id ∈ st.seen ∨
      ∃ x, t.transfer_transaction_id = some x ∧ x ∈ st.seen) :
    st'.lines = st.lines ∧ st'.count = st.count ∧ st'.seen = st.seen := by
  rw [importStep] at h
  split at h
  · rcases Option.map_eq_some'.mp h with ⟨a, -, rfl⟩
    exact ⟨rfl, rfl, rfl⟩
  · split at h
    · rcases Option.map_eq_some'.mp h with ⟨a, -, rfl⟩
      exact ⟨rfl, rfl, rfl⟩
    · split at h
      · cases h
      · next w hw =>
        split at h
        · cases h
          exact ⟨rfl, rfl, rfl⟩
        · next hid =>
          split at h
          · cases h
            exact ⟨rfl, rfl, rfl⟩
          · next httid =>
            rcases hseen with hin | ⟨x, hx, hmem⟩
            · exact absurd hin hid
            · rw [hx] at httid
              simp at httid
              exact absurd hmem httid

theorem step_seen_mono {ctx : Ctx} {args : Args} {st : LoopState}
    {t : Transaction} {st' : LoopState}
    (h : importStep ctx args st t = some st') :
    ∀ a ∈ st.seen, a ∈ st'.seen := by
  rw [importStep] at h
  split at h
  · rcases Option.map_eq_some'.mp h with ⟨a, -, rfl⟩
    exact fun a ha => ha
  · split at h
    · rcases Option.map_eq_some'.mp h with ⟨a, -, rfl⟩
      exact fun a ha => ha
    · split at h
      · cases h
      · split at h
        · cases h
          exact fun a ha => ha
        · split at h
          · cases h
            exact fun a ha => ha
          · exact (importTxn_spec h).2.2.2

theorem step_imported {ctx : Ctx} {args : Args} {st : LoopState}
    {t : Transaction} {st' : LoopState}
    (h : importStep ctx args st t = some st')
    (hc : st'.count ≠ st.count) :
    ∃ w, importTxn ctx args { st with warned := w } t = some st' := by
  rw [importStep] at h
  split at h
  · rcases Option.map_eq_some'.mp h with ⟨a, -, rfl⟩
    exact absurd rfl hc
  · split at h
    · rcases Option.map_eq_some'.mp h with ⟨a, -, rfl⟩
      exact absurd rfl hc
    · split at h
      · cases h
      · next w hw =>
        split at h
        · cases h
          exact absurd rfl hc
        · split at h
          · cases h
            exact absurd rfl hc
          · exact ⟨w, h⟩

theorem runLoop_seen_mono {ctx : Ctx} {args : Args} :
    ∀ {l : List Transaction} {st st' : LoopState},
      runLoop ctx args st l = some st' → ∀ a ∈ st.seen, a ∈ st'.seen := by
  intro l
  induction l with
  | nil =>
    intro st st' h a ha
    rw [runLoop] at h
    cases h
    exact ha
  | cons t rest ih =>
    intro st st' h a ha
    rw [runLoop] at h
    split at h
    · cases h
    · next st1 hstep => exact ih h a (step_seen_mono hstep a ha)

theorem runLoop_skip_all {ctx : Ctx} {args : Args} (hwf : ctx.wf) :
    ∀ {l : List Transaction} {st : LoopState},
      (∀ t ∈ l, t.id ∈ st.seen) →
      ∃ st', runLoop ctx args st l = some st' ∧ st'.lines = st.lines ∧
        st'.count = st.count ∧ st'.seen = st.seen := by
  intro l
  induction l with
  | nil => intro st _; exact ⟨st, rfl, rfl, rfl, rfl⟩
  | cons t rest ih =>
    intro st hall
    rcases importStep_some hwf st t with ⟨st1, hstep⟩
    have hfr := step_frame_of_seen hstep
      (Or.inl (hall t (List.mem_cons_self _ _)))
    rcases @ih st1 (fun u hu => by
      rw [hfr.2.2]; exact hall u (List.mem_cons_of_mem _ hu)) with
      ⟨st2, hrun, hl, hc, hs⟩
    refine ⟨st2, ?_, ?_, ?_, ?_⟩
    · rw [runLoop, hstep]; exact hrun
    · rw [hl, hfr.1]
    · rw [hc, hfr.2.1]
    · rw [hs, hfr.2.2]

theorem importTxn_subline {ctx : Ctx} {args : Args} {st : LoopState}
    {t : Transaction} {st' : LoopState}
    (h : importTxn ctx args st t = some st')
    {sub : Subtransaction} (hsub : sub ∈ t.subtransactions) :
    ∃ tgt, Line.subPosting tgt (-(from_milli sub.amount)) ctx.commodity sub.memo
      ∈ st'.lines := by
  rw [importTxn] at h
  cases hsrc : to_bean ctx t.account_id with
  | none => rw [hsrc] at h; cases h
  | some src =>
    rw [hsrc] at h
    cases hsubs : t.subtransactions with
    | nil => rw [hsubs] at hsub; cases hsub
    | cons s0 rest =>
      rw [hsubs] at h
      dsimp only at h
      cases hps : processSubs ctx args.balance_adjustment_account
          ([], seenAfterHeader st t) (s0 :: rest) with
      | none => rw [hps] at h; cases h
      | some pr =>
        rw [hps] at h
        cases pr with
        | mk subLines seen3 =>
          cases h
          rw [hsubs] at hsub
          rcases processSubs_mem hps sub hsub with ⟨tgt, hmem⟩
          refine ⟨tgt, ?_⟩
          dsimp only
          rw [List.append_assoc, List.append_assoc]
          exact List.mem_append_right _
            (List.mem_append_right _ (List.mem_append_left _ hmem))

theorem importTxn_fresh {ctx : Ctx} {args : Args} {st : LoopState}
    {t : Transaction} (hwf : ctx.wf)
    (httid : t.transfer_transaction_id = none)
    (hsubs : ∀ s ∈ t.subtransactions, s.transfer_transaction_id = none) :
    ∃ st', importTxn ctx args st t = some st' ∧ st'.count = st.count + 1 ∧
      st'.seen = addSeen t.id st.seen := by
  rcases to_bean_total hwf t.account_id with ⟨src, hsrc⟩
  have hsah : seenAfterHeader st t = addSeen t.id st.seen := by
    rw [seenAfterHeader, httid]
  rw [importTxn, hsrc]
  cases hsubs2 : t.subtransactions with
  | nil =>
    dsimp only
    rcases get_target_account_total hwf args.balance_adjustment_account
      t.payee_name t.memo t.category_id t.transfer_account_id with ⟨tgt, htgt⟩
    rw [htgt]
    exact ⟨_, rfl, rfl, hsah⟩
  | cons s0 rest =>
    dsimp only
    rcases processSubs_some hwf args.balance_adjustment_account (s0 :: rest)
      ([], seenAfterHeader st t) with ⟨⟨L, S⟩, hps⟩
    rw [hps]
    have hS : S = addSeen t.id st.seen := by
      have hse := processSubs_seen_eq
        (fun s hs => hsubs s (by rw [hsubs2]; exact hs)) hps
      exact hse.trans hsah
    exact ⟨_, rfl, rfl, hS⟩

theorem step_fresh {ctx : Ctx} {args : Args} {st : LoopState} {t : Transaction}
    (hwf : ctx.wf) (hsb : args.skip_starting_balances = false)
    (hid : t.id ∉ st.seen) (httid : t.transfer_transaction_id = none)
    (hsubs : ∀ s ∈ t.subtransactions, s.transfer_transaction_id = none) :
    ∃ st', importStep ctx args st t = some st' ∧ st'.count = st.count + 1 ∧
      st'.seen = addSeen t.id st.seen := by
  rcases to_bean_total hwf t.account_id with ⟨src, hsrc⟩
  have hc1 : ¬(args.skip_starting_balances = true ∧
      t.payee_name = some "Starting Balance" ∧
      t.category_id = some ctx.inflows_category_id) := by simp [hsb]
  have hc2 : ¬(args.skip_starting_balances = true ∧
      t.payee_name = some "Starting Balance" ∧
      truthy t.category_id = false) := by simp [hsb]
  rw [importStep, if_neg hc1, if_neg hc2]
  have hw : ∃ w, (if truthy t.category_id = false ∧
      truthy t.transfer_account_id = false then
        (to_bean ctx t.account_id).map (fun _ => st.warned ++ [t.id])
      else some st.warned) = some w := by
    split
    · rw [hsrc]; exact ⟨_, rfl⟩
    · exact ⟨_, rfl⟩
  rcases hw with ⟨w, hw⟩
  rw [hw]
  dsimp only
  rw [if_neg hid, httid]
  dsimp only
  rcases @importTxn_fresh ctx args { st with warned := w } t hwf httid hsubs with
    ⟨st', hit, hcount, hseen⟩
  exact ⟨st', by rw [if_neg (by simp)]; exact hit, hcount, hseen⟩

theorem runLoop_fresh_count {ctx : Ctx} {args : Args} (hwf : ctx.wf)
    (hsb : args.skip_starting_balances = false) :
    ∀ {l : List Transaction} {st : LoopState},
      (l.map Transaction.id).Nodup →
      (∀ t ∈ l, t.id ∉ st.seen) →
      (∀ t ∈ l, t.transfer_transaction_id = none ∧
        ∀ s ∈ t.subtransactions, s.transfer_transaction_id = none) →
      ∃ st', runLoop ctx args st l = some st' ∧
        st'.count = st.count + l.length := by
  intro l
  induction l with
  | nil => intro st _ _ _; exact ⟨st, rfl, by simp⟩
  | cons t rest ih =>
    intro st hnd hfresh hindep
    rcases step_fresh hwf hsb (hfresh t (List.mem_cons_self _ _))
      (hindep t (List.mem_cons_self _ _)).1
      (hindep t (List.mem_cons_self _ _)).2 with ⟨st1, hstep, hcount, hseen⟩
    have hnd' : t.id ∉ rest.map Transaction.id ∧
        (rest.map Transaction.id).Nodup := by
      rw [List.map_cons, List.nodup_cons] at hnd
      exact hnd
    have hfresh' : ∀ u ∈ rest, u.id ∉ st1.seen := by
      intro u hu
      rw [hseen, mem_addSeen]
      rintro (heq | hmem)
      · exact hnd'.1 (heq ▸ List.mem_map_of_mem Transaction.id hu)
      · exact hfresh u (List.mem_cons_of_mem _ hu) hmem
    rcases ih hnd'.2 hfresh' (fun u hu => hindep u (List.mem_cons_of_mem _ hu))
      with ⟨st2, hrun, hc2⟩
    refine ⟨st2, by rw [runLoop, hstep]; exact hrun, ?_⟩
    rw [hc2, hcount]
    simp [List.length_cons]
    omega

/-- C1: an identifier present in the Account Mapping Table always
resolves to the mapped ledger path — even when it also names a remote
Account, equals the inflows category identifier, or names a remote
Category — because `to_bean` returns `account_mapping.get(id,
bean_default)`; well-formedness of the fetched category tables keeps
the eagerly computed default from raising. -/
theorem router_precedence_mapping_wins (ctx : Ctx) (id path : String)
    (hwf : ctx.wf) (hmap : alookup ctx.account_mapping id = some path) :
    to_bean ctx id = some path := by
  rcases to_bean_total hwf id with ⟨s, hs⟩
  rw [to_bean] at hs ⊢
  rcases Option.map_eq_some'.mp hs with ⟨d, hd, -⟩
  rw [hd]
  simp [hmap]

/-- Witness for C1: `dup` is both a mapped identifier and an Account;
the mapped path wins over the asset default. -/
theorem router_precedence_mapping_wins_witness :
    to_bean c1ctx "dup" = some "Assets:Override" :=
  router_precedence_mapping_wins c1ctx "dup" "Assets:Override"
    (by decide) (by decide)

/-- C5: the reconciliation filter — a fetched transaction whose
cleared status is not `reconciled`, or whose deleted flag is set,
never contributes output lines or an import-count increment,
regardless of the other flags: the run over a sequence containing it
equals the run over the sequence without it. -/
theorem non_reconciled_never_emitted (ctx : Ctx) (args : Args)
    (seen0 : List String) (p q : List Transaction) (t : Transaction)
    (h : t.cleared ≠ "reconciled" ∨ t.deleted = true) :
    runImport ctx args seen0 (p ++ t :: q) =
      runImport ctx args seen0 (p ++ q) := by
  have he : eligible t = false := by
    rcases h with h | h
    · have hb : (t.cleared == "reconciled") = false :=
        beq_eq_false_iff_ne.mpr h
      simp [eligible, hb]
    · simp [eligible, h]
  have hf : List.filter eligible (t :: q) = List.filter eligible q := by
    rw [List.filter_cons, he]
    simp
  rw [runImport, runImport, List.filter_append, List.filter_append, hf]

/-- Witness for C5: a merely `cleared` transaction leaves the run
unchanged. -/
theorem non_reconciled_never_emitted_witness :
    runImport wCtx ⟨false, none⟩ [] ([] ++ c5t :: []) =
      runImport wCtx ⟨false, none⟩ [] ([] ++ []) :=
  non_reconciled_never_emitted wCtx ⟨false, none⟩ [] [] [] c5t
    (Or.inl (by decide))

/-- C8: entity resolution aborts the whole import run before any
ledger output is produced unless exactly one category group bears the
normalized `Internal Master Category` name and exactly one `Inflows`
category owned by it exists: any other match count makes `run_full`
return `none` (the failing `assert len(r) == 1`), never a silent
default. -/
theorem inflows_resolution_aborts (args : Args) (seen0 : List String)
    (account_mapping : List (String × String))
    (accounts : List (String × Account))
    (groups : List (String × CategoryGroup))
    (categories : List (String × Category))
    (aP eP iP comm : String) (ts : List Transaction)
    (h : ((groups.map Prod.snd).filter
        (fun x => x.name = ynab_normalize "Internal Master Category")).length
          ≠ 1 ∨
      ∀ m ∈ (groups.map Prod.snd).filter
          (fun x => x.name = ynab_normalize "Internal Master Category"),
        ((categories.map Prod.snd).filter
          (fun x => x.name = ynab_normalize "Inflows" ∧
            x.category_group_id = m.id)).length ≠ 1) :
    run_full args seen0 account_mapping accounts groups categories
      aP eP iP comm ts = none := by
  have hres : resolve_inflows groups categories = none := by
    rw [resolve_inflows]
    cases hg : (groups.map Prod.snd).filter
        (fun x => x.name = ynab_normalize "Internal Master Category") with
    | nil => rfl
    | cons g rest =>
      cases rest with
      | cons g2 rest2 => rfl
      | nil =>
        rcases h with hlen | hin
        · rw [hg] at hlen
          simp at hlen
        · have hinner := hin g (by rw [hg]; exact List.mem_singleton.mpr rfl)
          dsimp only [List.map_cons, List.map_nil]
          cases hc : (categories.map Prod.snd).filter
              (fun x => x.name = ynab_normalize "Inflows" ∧
                x.category_group_id = g.id) with
          | nil => rfl
          | cons c rest3 =>
            cases rest3 with
            | nil =>
              rw [hc] at hinner
              simp at hinner
            | cons c2 rest4 => rfl
  rw [run_full, hres]

/-- Witness for C8: with no category groups at all the run aborts with
no output. -/
theorem inflows_resolution_aborts_witness :
    run_full ⟨false, none⟩ [] [] [] [] [] "Assets" "Expenses" "Income"
      "USD" [] = none :=
  inflows_resolution_aborts ⟨false, none⟩ [] [] [] [] [] "Assets" "Expenses"
    "Income" "USD" [] (Or.inl (by decide))

/-- C10: budget selection — with exactly one fetched budget the
single-budget branch evaluates `json_budgets.values()[0]` on a list,
which raises whatever name argument is given; a budget is returned
only when at least two budgets were fetched and a truthy name matching
exactly one of them was supplied. -/
theorem budget_selection_shape (json_budgets : List BudgetJson) :
    (json_budgets.length = 1 →
      ∀ b, ∃ e, budget_from_json b json_budgets = .error e) ∧
    (∀ b β, budget_from_json b json_budgets = .ok β →
      2 ≤ json_budgets.length ∧ ∃ n, b = some n ∧ n ≠ "" ∧
        (json_budgets.filter (fun a => a.name = n)).length = 1) := by
  constructor
  · intro hlen b
    unfold budget_from_json
    rw [if_neg (by omega)]
    exact ⟨_, rfl⟩
  · intro b β h
    unfold budget_from_json at h
    split at h
    · next hgt =>
      refine ⟨by omega, ?_⟩
      split at h
      · cases h
      · next htr =>
        cases b with
        | none => dsimp only at h; cases h
        | some n =>
          refine ⟨n, rfl, ?_, ?_⟩
          · intro hn
            rw [hn] at htr
            simp [truthy] at htr
          · dsimp only at h
            cases hfil : json_budgets.filter (fun a => a.name = n) with
            | nil => rw [hfil] at h; cases h
            | cons x rest =>
              cases rest with
              | nil => rfl
              | cons y rest2 => rw [hfil] at h; cases h
    · cases h

/-- Witness for C10: a one-element budget list raises even with no
name supplied. -/
theorem budget_selection_shape_witness :
    ∃ e, budget_from_json none [c10b] = .error e :=
  (budget_selection_shape [c10b]).1 rfl none

/-- C2: transfer-pair suppression — if transactions `A` and `B` point
at each other through `transfer_transaction_id` and `A` is emitted
(its step increased the count), then when `B` is reached later in the
same run its step emits nothing and changes neither count nor seen
set: importing one leg suppresses the other side of the pair, so no
pair is emitted twice in a run. The statement is symmetric in the
naming of the two legs. -/
theorem transfer_pair_second_leg_skipped (ctx : Ctx) (args : Args)
    (A B : Transaction) (q : List Transaction)
    (st0 stA stB sfin : LoopState)
    (_hAB : A.transfer_transaction_id = some B.id)
    (hBA : B.transfer_transaction_id = some A.id)
    (hA : importStep ctx args st0 A = some stA)
    (himp : stA.count ≠ st0.count)
    (hq : runLoop ctx args stA q = some stB)
    (hB : importStep ctx args stB B = some sfin) :
    sfin.lines = stB.lines ∧ sfin.count = stB.count ∧ sfin.seen = stB.seen := by
  rcases step_imported hA himp with ⟨w, hit⟩
  have hAin : A.id ∈ stA.seen := (importTxn_spec hit).2.2.1
  have hAin' : A.id ∈ stB.seen := runLoop_seen_mono hq _ hAin
  exact step_frame_of_seen hB (Or.inr ⟨A.id, hBA, hAin'⟩)

/-- Witness for C2: the pair `c2A`/`c2B` with `c2A` imported first and
`c2B` encountered immediately after. -/
theorem transfer_pair_second_leg_skipped_witness :
    c2stA.lines = c2stA.lines ∧ c2stA.count = c2stA.count ∧
      c2stA.seen = c2stA.seen :=
  transfer_pair_second_leg_skipped wCtx ⟨false, none⟩ c2A c2B []
    ⟨[], 0, [], []⟩ c2stA c2stA c2stA rfl rfl rfl (by decide) rfl rfl

/-- C3: idempotence — when the seeded seen set already contains the
identifier of every fetched transaction, the run emits no ledger
lines, imports zero transactions and leaves the seen set unchanged
(well-formed category tables keep the eagerly formatted log messages
from raising). -/
theorem second_run_imports_nothing (ctx : Ctx) (args : Args)
    (seen0 : List String) (ts : List Transaction) (hwf : ctx.wf)
    (hall : ∀ t ∈ ts, t.id ∈ seen0) :
    ∃ s, runImport ctx args seen0 ts = some s ∧ s.count = 0 ∧
      s.lines = [] ∧ s.seen = seen0 := by
  rcases @runLoop_skip_all ctx args hwf (ts.filter eligible)
      ⟨seen0, 0, [], []⟩ (fun t ht => hall t (List.mem_of_mem_filter ht))
    with ⟨s, hrun, hl, hc, hs⟩
  exact ⟨s, hrun, hc, hl, hs⟩

/-- Witness for C3: a snapshot whose only transaction was already
imported. -/
theorem second_run_imports_nothing_witness :
    ∃ s, runImport wCtx ⟨false, none⟩ ["s1"] [c3t] = some s ∧ s.count = 0 ∧
      s.lines = [] ∧ s.seen = ["s1"] :=
  second_run_imports_nothing wCtx ⟨false, none⟩ ["s1"] [c3t] (by decide)
    (by decide)

/-- Counterexample to C4 as stated: a duplicate (already-seen)
transaction with neither category nor transfer account id still
triggers the missing-category warning, because the warning check
(lines 386-392) runs before the deduplication check (lines 394-400);
the claim's "no other side effects (including no warning emission)"
fails. Lines, count and seen set are indeed unchanged, but the
`warned` log is extended. -/
theorem dup_skip_still_warns_cex :
    runImport wCtx ⟨false, none⟩ ["t1"] [c4t] =
      some ⟨["t1"], 0, [], ["t1"]⟩ ∧ (["t1"] : List String) ≠ [] :=
  ⟨rfl, by decide⟩

/-- C4 amended: a transaction whose own identifier or whose transfer
counterpart identifier is already in the seen set is skipped with no
output lines, no import-count change and no seen-set change; but
because the missing-category warning check precedes deduplication, the
warning can still be emitted (only the warning log may change). -/
theorem dup_skip_frame (ctx : Ctx) (args : Args) (st : LoopState)
    (t : Transaction) (st' : LoopState)
    (h : importStep ctx args st t = some st')
    (hseen : t.id ∈ st.seen ∨
      ∃ x, t.transfer_transaction_id = some x ∧ x ∈ st.seen) :
    st'.lines = st.lines ∧ st'.count = st.count ∧ st'.seen = st.seen :=
  step_frame_of_seen h hseen

/-- Witness for C4's amended claim at the concrete duplicate `c4t`. -/
theorem dup_skip_frame_witness :
    (⟨["t1"], 0, [], ["t1"]⟩ : LoopState).lines =
        (⟨["t1"], 0, [], []⟩ : LoopState).lines ∧
      (⟨["t1"], 0, [], ["t1"]⟩ : LoopState).count =
        (⟨["t1"], 0, [], []⟩ : LoopState).count ∧
      (⟨["t1"], 0, [], ["t1"]⟩ : LoopState).seen =
        (⟨["t1"], 0, [], []⟩ : LoopState).seen :=
  dup_skip_frame wCtx ⟨false, none⟩ ⟨["t1"], 0, [], []⟩ c4t
    ⟨["t1"], 0, [], ["t1"]⟩ rfl (Or.inl (by decide))

/-- C6: subtransaction sign flip — every subtransaction of an emitted
split transaction yields a posting line whose amount is exactly the
negation of its stored milliunits divided by 1000, as an exact
rational: no rounding, since multiplying the amount back by 1000
returns the negated stored integer. -/
theorem subtransaction_sign_flip (ctx : Ctx) (args : Args)
    (st st' : LoopState) (t : Transaction) (sub : Subtransaction)
    (h : importStep ctx args st t = some st') (hc : st'.count ≠ st.count)
    (hsub : sub ∈ t.subtransactions) :
    (∃ tgt, Line.subPosting tgt (-(from_milli sub.amount)) ctx.commodity
      sub.memo ∈ st'.lines) ∧
      from_milli sub.amount = (sub.amount : ℚ) / 1000 ∧
      (-(from_milli sub.amount)) * 1000 = -(sub.amount : ℚ) := by
  rcases step_imported h hc with ⟨w, hit⟩
  refine ⟨importTxn_subline hit hsub, rfl, ?_⟩
  rw [from_milli, neg_mul, div_mul_cancel₀ _ (by norm_num : (1000 : ℚ) ≠ 0)]

/-- Witness for C6 at the concrete split transaction `c6t`. -/
theorem subtransaction_sign_flip_witness :
    (∃ tgt, Line.subPosting tgt (-(from_milli c6sub.amount)) wCtx.commodity
      c6sub.memo ∈ c6st.lines) ∧
      from_milli c6sub.amount = (c6sub.amount : ℚ) / 1000 ∧
      (-(from_milli c6sub.amount)) * 1000 = -(c6sub.amount : ℚ) :=
  subtransaction_sign_flip wCtx ⟨false, none⟩ ⟨[], 0, [], []⟩ c6st c6t c6sub
    rfl (by decide) (by decide)

/-- Counterexample to C7 as stated: the core never re-sorts — output
follows fetch order, and permuting the fetched sequence can change
both the emitted text and even the import count: a subtransaction's
transfer id suppresses a later counterpart but not an earlier one. -/
theorem fetch_order_sensitivity_cex :
    (runImport wCtx ⟨false, none⟩ [] [c7t1, c7t3]).map LoopState.count =
        some 1 ∧
      (runImport wCtx ⟨false, none⟩ [] [c7t3, c7t1]).map LoopState.count =
        some 2 :=
  ⟨by decide, by decide⟩

/-- C7 amended: the core is a deterministic function of the fetched
sequence in its given order; it does not re-sort, and in general
permuting the input changes the output text and can change the count.
What does hold: for a snapshot of pairwise-independent transactions
(distinct identifiers not already seen, no transfer links anywhere,
starting-balance skipping off, well-formed tables) every permutation
of the fetch order yields the same import count. -/
theorem import_count_perm_invariant (ctx : Ctx) (args : Args)
    (seen0 : List String) (ts ts' : List Transaction) (hwf : ctx.wf)
    (hsb : args.skip_starting_balances = false)
    (hperm : ts.Perm ts')
    (hnd : (ts.map Transaction.id).Nodup)
    (hfresh : ∀ t ∈ ts, t.id ∉ seen0)
    (hindep : ∀ t ∈ ts, t.transfer_transaction_id = none ∧
      ∀ s ∈ t.subtransactions, s.transfer_transaction_id = none) :
    ∃ s s', runImport ctx args seen0 ts = some s ∧
      runImport ctx args seen0 ts' = some s' ∧ s.count = s'.count := by
  have hndf : ((ts.filter eligible).map Transaction.id).Nodup :=
    List.Nodup.sublist ((List.filter_sublist ts).map Transaction.id) hnd
  have hnd2 : (ts'.map Transaction.id).Nodup :=
    ((hperm.map Transaction.id).nodup_iff).mp hnd
  have hndf2 : ((ts'.filter eligible).map Transaction.id).Nodup :=
    List.Nodup.sublist ((List.filter_sublist ts').map Transaction.id) hnd2
  rcases @runLoop_fresh_count ctx args hwf hsb (ts.filter eligible)
      ⟨seen0, 0, [], []⟩ hndf
      (fun t ht => hfresh t (List.mem_of_mem_filter ht))
      (fun t ht => hindep t (List.mem_of_mem_filter ht))
    with ⟨s, hrun, hc⟩
  rcases @runLoop_fresh_count ctx args hwf hsb (ts'.filter eligible)
      ⟨seen0, 0, [], []⟩ hndf2
      (fun t ht => hfresh t (hperm.mem_iff.mpr (List.mem_of_mem_filter ht)))
      (fun t ht => hindep t (hperm.mem_iff.mpr (List.mem_of_mem_filter ht)))
    with ⟨s', hrun2, hc2⟩
  refine ⟨s, s', hrun, hrun2, ?_⟩
  rw [hc, hc2, (hperm.filter eligible).length_eq]

/-- Witness for C7's amended claim: swapping two independent
transactions preserves the import count. -/
theorem import_count_perm_invariant_witness :
    ∃ s s', runImport wCtx ⟨false, none⟩ [] [c7w1, c7w2] = some s ∧
      runImport wCtx ⟨false, none⟩ [] [c7w2, c7w1] = some s' ∧
      s.count = s'.count :=
  import_count_perm_invariant wCtx ⟨false, none⟩ [] [c7w1, c7w2]
    [c7w2, c7w1] (by decide) rfl (by decide) (by decide) (by decide)
    (by decide)

theorem catEntries_map_fst {m : List (String × String)}
    {groups : List (String × CategoryGroup)}
    {categories : List (String × Category)} :
    ∀ {l : List (String × Category)} {es},
      catEntries m groups categories l = some es →
      es.map Prod.fst = l.map Prod.fst := by
  intro l
  induction l with
  | nil =>
    intro es h
    rw [catEntries] at h
    cases h
    rfl
  | cons p rest ih =>
    intro es h
    rw [catEntries] at h
    split at h
    · cases h
    · split at h
      · cases h
      · next es' hes' =>
        cases h
        rw [List.map_cons, List.map_cons, ih hes']

theorem catEntries_mem {m : List (String × String)}
    {groups : List (String × CategoryGroup)}
    {categories : List (String × Category)} :
    ∀ {l : List (String × Category)} {es},
      catEntries m groups categories l = some es →
      ∀ e ∈ es, ∃ p ∈ l, ∃ n,
        fmt_ynab_category p.2.id groups categories = some n ∧
        e = (p.1, n, mappingStatus m p.1) := by
  intro l
  induction l with
  | nil =>
    intro es h e he
    rw [catEntries] at h
    cases h
    cases he
  | cons p rest ih =>
    intro es h e he
    rw [catEntries] at h
    split at h
    · cases h
    · next n hn =>
      split at h
      · cases h
      · next es' hes' =>
        cases h
        rcases List.mem_cons.mp he with rfl | he'
        · exact ⟨p, List.mem_cons_self _ _, n, hn, rfl⟩
        · rcases ih hes' e he' with ⟨p', hp', n', hn', he2⟩
          exact ⟨p', List.mem_cons_of_mem _ hp', n', hn', he2⟩

/-- Counterexample to C9 as stated: `list_ynab_ids` sorts each listing
by the dict item's value — a record whose leading field is the id —
not by the resolved display name, so the category listing can print
resolved names out of order (`Zeta:Apple` before `Alpha:Zed`). -/
theorem listing_not_sorted_by_name_cex :
    list_ynab_ids [] [] c9groups c9cats =
      some [("1", "Zeta:Apple", "(none)"), ("2", "Alpha:Zed", "(none)")] ∧
      ¬ (["Zeta:Apple", "Alpha:Zed"].Pairwise
        (fun a b => strLe a b = true)) :=
  ⟨by decide, by decide⟩

/-- C9 amended: in list-identifiers mode every remote account
identifier and every remote category identifier is printed exactly
once (the printed ids are a permutation of the dict keys) together
with its resolved name and its ledger-mapping status, and each of the
two listings is sorted by the dict item's value — effectively by the
record's leading identifier field — rather than by resolved name. -/
theorem listing_once_and_sorted_by_id
    (account_mapping : List (String × String))
    (accounts : List (String × Account))
    (groups : List (String × CategoryGroup))
    (categories : List (String × Category))
    (L : List (String × String × String))
    (hacc : ∀ p ∈ accounts, p.1 = p.2.id)
    (hcat : ∀ p ∈ categories, p.1 = p.2.id)
    (h : list_ynab_ids account_mapping accounts groups categories = some L) :
    ∃ A C, L = A ++ C ∧
      (A.map Prod.fst).Perm (accounts.map Prod.fst) ∧
      (A.map Prod.fst).Pairwise (fun a b => strLe a b = true) ∧
      (∀ e ∈ A, ∃ p ∈ accounts,
        e = (p.1, p.2.name, mappingStatus account_mapping p.1)) ∧
      (C.map Prod.fst).Perm (categories.map Prod.fst) ∧
      (C.map Prod.fst).Pairwise (fun a b => strLe a b = true) ∧
      (∀ e ∈ C, ∃ p ∈ categories, ∃ n,
        fmt_ynab_category p.2.id groups categories = some n ∧
        e = (p.1, n, mappingStatus account_mapping p.1)) := by
  rw [list_ynab_ids] at h
  split at h
  · cases h
  · next catPart hce =>
    cases h
    have hpermacc := List.perm_insertionSort (valueIdLe Account.id) accounts
    have hpermcat := List.perm_insertionSort (valueIdLe Category.id) categories
    have hmemacc : ∀ p ∈ List.insertionSort (valueIdLe Account.id) accounts,
        p.1 = p.2.id := fun p hp => hacc p (hpermacc.subset hp)
    have hmemcat : ∀ p ∈ List.insertionSort (valueIdLe Category.id) categories,
        p.1 = p.2.id := fun p hp => hcat p (hpermcat.subset hp)
    have hpwacc : (List.insertionSort (valueIdLe Account.id) accounts).Pairwise
        (fun p q => strLe p.1 q.1 = true) :=
      List.Pairwise.imp_of_mem
        (fun ha hb hr => by
          rw [hmemacc _ ha, hmemacc _ hb]
          exact hr)
        (List.sorted_insertionSort (valueIdLe Account.id) accounts)
    have hpwcat : (List.insertionSort (valueIdLe Category.id) categories).Pairwise
        (fun p q => strLe p.1 q.1 = true) :=
      List.Pairwise.imp_of_mem
        (fun ha hb hr => by
          rw [hmemcat _ ha, hmemcat _ hb]
          exact hr)
        (List.sorted_insertionSort (valueIdLe Category.id) categories)
    refine ⟨_, catPart, rfl, ?_, ?_, ?_, ?_, ?_, ?_⟩
    · rw [List.map_map]
      exact hpermacc.map _
    · rw [List.map_map]
      exact List.pairwise_map.mpr hpwacc
    · intro e he
      rcases List.mem_map.mp he with ⟨p, hp, rfl⟩
      exact ⟨p, hpermacc.subset hp, rfl⟩
    · rw [catEntries_map_fst hce]
      exact hpermcat.map _
    · rw [catEntries_map_fst hce]
      exact List.pairwise_map.mpr hpwcat
    · intro e he
      rcases catEntries_mem hce e he with ⟨p, hp, n, hn, he2⟩
      exact ⟨p, hpermcat.subset hp, n, hn, he2⟩

/-- Witness for C9's amended claim at the concrete category tables of
the counterexample. -/
theorem listing_once_and_sorted_by_id_witness :
    ∃ A C, ([("1", "Zeta:Apple", "(none)"),
        ("2", "Alpha:Zed", "(none)")] : List (String × String × String)) =
        A ++ C ∧
      (A.map Prod.fst).Perm (([] : List (String × Account)).map Prod.fst) ∧
      (A.map Prod.fst).Pairwise (fun a b => strLe a b = true) ∧
      (∀ e ∈ A, ∃ p ∈ ([] : List (String × Account)),
        e = (p.1, p.2.name, mappingStatus [] p.1)) ∧
      (C.map Prod.fst).Perm (c9cats.map Prod.fst) ∧
      (C.map Prod.fst).Pairwise (fun a b => strLe a b = true) ∧
      (∀ e ∈ C, ∃ p ∈ c9cats, ∃ n,
        fmt_ynab_category p.2.id c9groups c9cats = some n ∧
        e = (p.1, n, mappingStatus [] p.1)) :=
  listing_once_and_sorted_by_id [] [] c9groups c9cats
    [("1", "Zeta:Apple", "(none)"), ("2", "Alpha:Zed", "(none)")]
    (by decide) (by decide) (by decide)
